import Mathlib

/-!
# Verification of the Simon multiplayer game backend

Shallow embedding of the round engine (`src/backend/utils/simonLogic.ts`)
and the room registry (`src/backend/services/gameService.ts`), together
with proofs of the specification claims about them.

JavaScript `Record<string, T>` objects are embedded as association lists
`List (String × T)` in insertion order (JS objects preserve string-key
insertion order, and `Object.values` / `Object.entries` iterate in that
order).  Assigning to an existing key keeps its position (`setVal`),
assigning a fresh key appends.  Nondeterministic inputs of the code
(random colors from `Math.random`, generated UUIDs and game codes,
wall-clock times) are passed in as explicit parameters.
-/

set_option maxRecDepth 1024

namespace Simon

/-- The four Simon colors (fixed 4-element enum). -/
inductive Color
  | red | blue | yellow | green
deriving DecidableEq, Repr

/-- Difficulty levels. -/
inductive Difficulty
  | easy | medium | hard
deriving DecidableEq, Repr

/-- Player round status. -/
inductive PStatus
  | playing | eliminated
deriving DecidableEq, Repr

/-- Game phases used by the Simon engine. -/
inductive Phase
  | showing_sequence | input | round_end
deriving DecidableEq, Repr

/-- Room status. -/
inductive RoomStatus
  | waiting | countdown | active | finished
deriving DecidableEq, Repr

/-- Elimination reasons reported by `processRoundSubmissions`. -/
inductive ElimReason
  | wrong_sequence | timeout
deriving DecidableEq, Repr

/-- Per-player round state (`SimonPlayerState`). -/
structure SimonPlayerState where
  playerId : String
  status : PStatus
  currentInputIndex : Nat
  eliminatedAtRound : Option Nat
deriving DecidableEq, Repr

/-- A submitted attempt for the current round (`Submission`). -/
structure Submission where
  playerId : String
  sequence : List Color
  timestamp : Int
  isCorrect : Bool
deriving DecidableEq, Repr

/-- Platform player record (`Player`); `lastActivity` in epoch ms. -/
structure Player where
  id : String
  displayName : String
  avatarId : String
  isHost : Bool
  socketId : Option String
  connected : Bool
  lastActivity : Int
deriving DecidableEq, Repr

/-- Info supplied by a client when creating or joining (`PlayerInfo`). -/
structure PlayerInfo where
  displayName : String
  avatarId : String
deriving DecidableEq, Repr

/-- The Simon round state (`SimonGameState`). -/
structure SimonGameState where
  phase : Phase
  sequence : List Color
  round : Nat
  playerStates : List (String × SimonPlayerState)
  currentShowingIndex : Nat
  timeoutMs : Int
  timeoutAt : Option Int
  timerStartedAt : Option Int
  scores : List (String × Int)
  submissions : List (String × Submission)
  roundWinner : Option String
  winnerId : Option String
  difficulty : Difficulty
deriving DecidableEq, Repr

-- =============================================================================
-- Association-list primitives embedding JS `Record` semantics
-- =============================================================================

/-- Lookup `obj[k]` (first occurrence; JS records have unique keys). -/
def getVal (m : List (String × α)) (k : String) : Option α :=
  (m.find? (fun e => e.1 = k)).map (·.2)

/-- Assignment `obj[k] = v`: replace in place if present, else append. -/
def setVal : List (String × α) → String → α → List (String × α)
  | [], k, v => [(k, v)]
  | e :: rest, k, v =>
    if e.1 = k then (k, v) :: rest else e :: setVal rest k v

/-- Deletion `map.delete(k)` (first occurrence). -/
def delVal : List (String × α) → String → List (String × α)
  | [], _ => []
  | e :: rest, k => if e.1 = k then rest else e :: delVal rest k

-- =============================================================================
-- Difficulty constants (shared/types/game.types.ts)
-- =============================================================================

/-- The difficulty preset record returned by `getSimonConstantsForDifficulty`. -/
structure SimonConstants where
  SHOW_COLOR_DURATION_MS : Int
  SHOW_COLOR_GAP_MS : Int
  INITIAL_TIMEOUT_MS : Int
  TIMEOUT_DECREMENT_MS : Int
  MIN_TIMEOUT_MS : Int
  INITIAL_SEQUENCE_LENGTH : Nat
  SEQUENCE_INCREMENT : Nat
deriving DecidableEq, Repr

/-- Modelled from the spec: the file `src/shared/types/game.types.ts`
(DIFFICULTY_SETTINGS / `getSimonConstantsForDifficulty`) is not in the
sources, only its unit tests.  The fixed per-difficulty presets
(showColorDurationMs / showColorGapMs / initialTimeoutMs / minTimeoutMs,
and INITIAL_SEQUENCE_LENGTH = 1, SEQUENCE_INCREMENT = 1) are taken from
the spec and the values pinned by the repository's own tests.  Neither
the spec nor the tests fix the numeric `timeoutDecrementMs` values, so
they are received as an explicit parameter `decs`. -/
def getSimonConstantsForDifficulty (decs : Difficulty → Int) :
    Difficulty → SimonConstants
  | .easy =>
    { SHOW_COLOR_DURATION_MS := 900, SHOW_COLOR_GAP_MS := 300
      INITIAL_TIMEOUT_MS := 10000, TIMEOUT_DECREMENT_MS := decs .easy
      MIN_TIMEOUT_MS := 3000, INITIAL_SEQUENCE_LENGTH := 1
      SEQUENCE_INCREMENT := 1 }
  | .medium =>
    { SHOW_COLOR_DURATION_MS := 600, SHOW_COLOR_GAP_MS := 200
      INITIAL_TIMEOUT_MS := 5000, TIMEOUT_DECREMENT_MS := decs .medium
      MIN_TIMEOUT_MS := 1500, INITIAL_SEQUENCE_LENGTH := 1
      SEQUENCE_INCREMENT := 1 }
  | .hard =>
    { SHOW_COLOR_DURATION_MS := 350, SHOW_COLOR_GAP_MS := 150
      INITIAL_TIMEOUT_MS := 4000, TIMEOUT_DECREMENT_MS := decs .hard
      MIN_TIMEOUT_MS := 1000, INITIAL_SEQUENCE_LENGTH := 1
      SEQUENCE_INCREMENT := 1 }

-- =============================================================================
-- simonLogic.ts — timing
-- =============================================================================

/-- `calculateTimeoutSeconds`: `15 + sequenceLength * 2`. -/
def calculateTimeoutSeconds (sequenceLength : Int) : Int :=
  15 + sequenceLength * 2

/-- `calculateTimeoutMs`: seconds formula times 1000. -/
def calculateTimeoutMs (sequenceLength : Int) : Int :=
  calculateTimeoutSeconds sequenceLength * 1000

-- =============================================================================
-- simonLogic.ts — sequence generation
-- =============================================================================

/-- `generateSequence`: a loop of `length` random draws; the random draws
are embedded as the explicit choice stream `choose`. -/
def generateSequence (choose : Nat → Color) (length : Nat) : List Color :=
  (List.range length).map choose

/-- `extendSequence`: append one random color (embedded as argument `c`). -/
def extendSequence (c : Color) (currentSequence : List Color) : List Color :=
  currentSequence ++ [c]

-- =============================================================================
-- simonLogic.ts — initialization
-- =============================================================================

/-- `initializeSimonGame`: fresh round-1 state for the given players.
`decs` supplies the unpinned timeoutDecrementMs presets, `choose` the
random draws of the initial sequence. -/
def initializeSimonGame (decs : Difficulty → Int) (choose : Nat → Color)
    (players : List Player) (difficulty : Difficulty := .medium) :
    SimonGameState :=
  let playerStates := players.foldl
    (fun m p => setVal m p.id
      { playerId := p.id, status := .playing, currentInputIndex := 0
        eliminatedAtRound := none }) []
  let constants := getSimonConstantsForDifficulty decs difficulty
  let initialSequence := generateSequence choose constants.INITIAL_SEQUENCE_LENGTH
  let scores := players.foldl (fun m p => setVal m p.id 0) []
  { phase := .showing_sequence
    sequence := initialSequence
    round := 1
    playerStates := playerStates
    currentShowingIndex := 0
    timeoutMs := calculateTimeoutMs constants.INITIAL_SEQUENCE_LENGTH
    timeoutAt := none
    timerStartedAt := none
    scores := scores
    submissions := []
    roundWinner := none
    winnerId := none
    difficulty := difficulty }

-- =============================================================================
-- simonLogic.ts — game progression
-- =============================================================================

/-- `advanceToNextRound`: extend the sequence by one color (`c`), clamp
the decremented timeout at the difficulty minimum, reset every player's
input index, clear submissions and round winner, increment the round. -/
def advanceToNextRound (decs : Difficulty → Int) (c : Color)
    (gameState : SimonGameState) : SimonGameState :=
  let constants := getSimonConstantsForDifficulty decs gameState.difficulty
  let newSequence := extendSequence c gameState.sequence
  let newTimeout := max constants.MIN_TIMEOUT_MS
    (gameState.timeoutMs - constants.TIMEOUT_DECREMENT_MS)
  let updatedPlayerStates := gameState.playerStates.map
    (fun e => (e.1, { e.2 with currentInputIndex := 0 }))
  { gameState with
    phase := .showing_sequence
    sequence := newSequence
    round := gameState.round + 1
    playerStates := updatedPlayerStates
    currentShowingIndex := 0
    timeoutMs := newTimeout
    submissions := []
    roundWinner := none }

/-- `eliminatePlayer`: mark one player eliminated at the given round. -/
def eliminatePlayer (gameState : SimonGameState) (playerId : String)
    (round : Nat) : SimonGameState :=
  match getVal gameState.playerStates playerId with
  | none => { gameState with playerStates := gameState.playerStates }
  | some ps =>
    { gameState with
      playerStates := setVal gameState.playerStates playerId
        { ps with status := .eliminated, eliminatedAtRound := some round } }

/-- `updatePlayerProgress`: advance one player's input index. -/
def updatePlayerProgress (gameState : SimonGameState) (playerId : String) :
    SimonGameState :=
  match getVal gameState.playerStates playerId with
  | none => { gameState with playerStates := gameState.playerStates }
  | some ps =>
    { gameState with
      playerStates := setVal gameState.playerStates playerId
        { ps with currentInputIndex := ps.currentInputIndex + 1 } }

-- =============================================================================
-- simonLogic.ts — round processing
-- =============================================================================

/-- Comparison used by `submissions.sort((a, b) => a.timestamp - b.timestamp)`;
JS `Array.prototype.sort` is a stable sort, embedded via `List.insertionSort`. -/
def subLe (a b : Submission) : Prop := a.timestamp ≤ b.timestamp

instance : DecidableRel subLe := fun _ _ => inferInstanceAs (Decidable (_ ≤ _))

instance : IsTotal Submission subLe := ⟨fun a b => Int.le_total a.timestamp b.timestamp⟩

instance : IsTrans Submission subLe := ⟨fun _ _ _ h1 h2 => le_trans h1 h2⟩

/-- One step of the elimination loop of `processRoundSubmissions`: an
incorrect submission from a still-playing player eliminates that player
at the current round and records a `wrong_sequence` elimination. -/
def elimStep (round : Nat)
    (acc : List (String × SimonPlayerState) × List (String × ElimReason))
    (s : Submission) :
    List (String × SimonPlayerState) × List (String × ElimReason) :=
  if s.isCorrect then acc
  else
    match getVal acc.1 s.playerId with
    | some ps =>
      if ps.status = .playing then
        (setVal acc.1 s.playerId
          { ps with status := .eliminated, eliminatedAtRound := some round },
         acc.2 ++ [(s.playerId, ElimReason.wrong_sequence)])
      else acc
    | none => acc

/-- One step of the winner-scoring loop: `scores[pid] = (scores[pid] || 0) + 1`. -/
def scoreStep (m : List (String × Int)) (w : Submission) : List (String × Int) :=
  setVal m w.playerId ((getVal m w.playerId).getD 0 + 1)

/-- Result record of `processRoundSubmissions`. -/
structure ProcessResult where
  gameState : SimonGameState
  roundWinner : Option (String × Int)
  eliminations : List (String × ElimReason)
deriving DecidableEq, Repr

/-- `processRoundSubmissions`: eliminate every incorrect still-playing
submitter, stably sort the correct submissions by timestamp, award +1 to
every earliest-timestamp submitter, report the first of them as round
winner, and clear the submissions map. -/
def processRoundSubmissions (gameState : SimonGameState) : ProcessResult :=
  let submissions := gameState.submissions.map (·.2)
  let correctSubmissions := submissions.filter (·.isCorrect)
  let elimmed := submissions.foldl (elimStep gameState.round)
    (gameState.playerStates, [])
  let updatedPlayerStates := elimmed.1
  let eliminations := elimmed.2
  match correctSubmissions.insertionSort subLe with
  | [] =>
    { gameState :=
        { gameState with
          playerStates := updatedPlayerStates
          scores := gameState.scores
          roundWinner := none
          submissions := [] }
      roundWinner := none
      eliminations := eliminations }
  | fastest :: rest =>
    let winners := (fastest :: rest).filter
      (fun s => s.timestamp = fastest.timestamp)
    let updatedScores := winners.foldl scoreStep gameState.scores
    let roundWinner : Option (String × Int) :=
      match winners with
      | [] => none
      | w :: _ => some (w.playerId, (getVal updatedScores w.playerId).getD 0)
    { gameState :=
        { gameState with
          playerStates := updatedPlayerStates
          scores := updatedScores
          roundWinner :=
            match roundWinner with
            | some (pid, _) => if pid = "" then none else some pid
            | none => none
          submissions := [] }
      roundWinner := roundWinner
      eliminations := eliminations }

/-- `haveAllPlayersSubmitted`: every active player has a submission. -/
def haveAllPlayersSubmitted (gameState : SimonGameState) : Bool :=
  let activePlayers := (gameState.playerStates.map (·.2)).filter
    (fun s => s.status = .playing)
  let submissions := gameState.submissions.map (·.1)
  0 < activePlayers.length ∧ activePlayers.length ≤ submissions.length

/-- `getActivePlayerCount`: players whose status is `playing`. -/
def getActivePlayerCount (gameState : SimonGameState) : Nat :=
  ((gameState.playerStates.map (·.2)).filter
    (fun s => s.status = .playing)).length

/-- `shouldGameEnd`: solo rooms end at 0 active players, multiplayer
rooms end at ≤ 1 active players. -/
def shouldGameEnd (gameState : SimonGameState) : Bool :=
  let totalPlayers := gameState.playerStates.length
  let activePlayers := (gameState.playerStates.map (·.2)).filter
    (fun s => s.status = .playing)
  if totalPlayers = 1 then
    activePlayers.length = 0
  else
    activePlayers.length ≤ 1

/-- `getWinner`: sole active player, else (when none are active) the
first player to attain the running maximum in a fold over the scores
map starting from `highestScore = -1`. -/
def getWinner (gameState : SimonGameState) : Option String :=
  let activePlayers := (gameState.playerStates.map (·.2)).filter
    (fun s => s.status = .playing)
  if activePlayers.length = 1 then
    activePlayers.head?.map (·.playerId)
  else if activePlayers.length = 0 then
    (gameState.scores.foldl
      (fun acc e => if e.2 > acc.1 then (e.2, some e.1) else acc)
      ((-1 : Int), (none : Option String))).2
  else
    none

-- =============================================================================
-- gameService.ts — room registry
-- =============================================================================

/-- Modelled from the spec: `PLATFORM_CONSTANTS` lives in the missing
shared types file; the spec fixes the configured room maximum at 4. -/
def MAX_PLAYERS : Nat := 4

/-- A game room (`GameRoom`); the Redis persistence layer and the
game-state payload are outside the registry claims and omitted. -/
structure GameRoom where
  gameCode : String
  players : List Player
  status : RoomStatus
  createdAt : Int
deriving DecidableEq, Repr

/-- The registry's in-memory `Map<string, GameRoom>`, embedded as an
association list keyed by game code. -/
abbrev Rooms := List (String × GameRoom)

/-- `GameService.createRoom`: build a single-player room whose only
player is the host and store it under a fresh code.  The generated UUID,
generated game code (`generateGameCode` is in the missing
`utils/gameCode.ts`; the spec says it rejects-and-retries until the code
collides with no known room) and the clock are explicit parameters. -/
def createRoom (rooms : Rooms) (newCode newId : String) (hostInfo : PlayerInfo)
    (now : Int) : Rooms × GameRoom :=
  let host : Player :=
    { id := newId, displayName := hostInfo.displayName
      avatarId := hostInfo.avatarId, isHost := true
      socketId := none, connected := false, lastActivity := now }
  let room : GameRoom :=
    { gameCode := newCode, players := [host], status := .waiting
      createdAt := now }
  (setVal rooms newCode room, room)

/-- `GameService.joinRoom`: three ordered failure checks, then append a
new non-host player.  The thrown `Error` messages become `Except.error`. -/
def joinRoom (rooms : Rooms) (gameCode newId : String)
    (playerInfo : PlayerInfo) (now : Int) :
    Except String (Rooms × GameRoom) :=
  match getVal rooms gameCode with
  | none => .error "Room not found"
  | some room =>
    if room.status ≠ .waiting then .error "Game already in progress"
    else if MAX_PLAYERS ≤ room.players.length then .error "Room is full"
    else
      let player : Player :=
        { id := newId, displayName := playerInfo.displayName
          avatarId := playerInfo.avatarId, isHost := false
          socketId := none, connected := false, lastActivity := now }
      let room' := { room with players := room.players ++ [player] }
      .ok (setVal rooms gameCode room', room')

/-- `joinRoom` at the call boundary: a thrown error leaves the service's
room map untouched. -/
def joinRoomRun (rooms : Rooms) (gameCode newId : String)
    (playerInfo : PlayerInfo) (now : Int) : Rooms × Except String GameRoom :=
  match joinRoom rooms gameCode newId playerInfo now with
  | .error e => (rooms, .error e)
  | .ok (rooms', room) => (rooms', .ok room)

/-- `players.findIndex` + `players.splice(i, 1)`: remove the first
player with the given id, returning it and the remaining list. -/
def removeFirst (playerId : String) : List Player → Option (Player × List Player)
  | [] => none
  | p :: rest =>
    if p.id = playerId then some (p, rest)
    else (removeFirst playerId rest).map (fun r => (r.1, p :: r.2))

/-- `room.players[0].isHost = true` after a host departure. -/
def promoteHead : List Player → List Player
  | [] => []
  | p :: rest => { p with isHost := true } :: rest

/-- `GameService.removePlayer`: remove the player; delete the room if it
became empty; promote the first remaining player if the host left.
Returns the updated map and whether a removal occurred. -/
def removePlayer (rooms : Rooms) (gameCode playerId : String) : Rooms × Bool :=
  match getVal rooms gameCode with
  | none => (rooms, false)
  | some room =>
    match removeFirst playerId room.players with
    | none => (rooms, false)
    | some (removedPlayer, newPlayers) =>
      if newPlayers.length = 0 then (delVal rooms gameCode, true)
      else
        let newPlayers' :=
          if removedPlayer.isHost ∧ 0 < newPlayers.length then
            promoteHead newPlayers
          else newPlayers
        (setVal rooms gameCode { room with players := newPlayers' }, true)

-- =============================================================================
-- Derived notions used to state the claims
-- =============================================================================

/-- `n` successive applications of `advanceToNextRound`, drawing the new
color of step `k` from the stream `cs`. -/
def advanceRounds (decs : Difficulty → Int) (cs : Nat → Color) :
    Nat → SimonGameState → SimonGameState
  | 0, gs => gs
  | k + 1, gs => advanceRounds decs cs k (advanceToNextRound decs (cs k) gs)

/-- States reachable through the engine's state-producing operations,
starting from `initializeSimonGame`. -/
inductive Reachable (decs : Difficulty → Int) : SimonGameState → Prop
  | init (choose : Nat → Color) (players : List Player) (d : Difficulty) :
      Reachable decs (initializeSimonGame decs choose players d)
  | advance (c : Color) (gs : SimonGameState) :
      Reachable decs gs → Reachable decs (advanceToNextRound decs c gs)
  | process (gs : SimonGameState) :
      Reachable decs gs → Reachable decs (processRoundSubmissions gs).gameState
  | eliminate (gs : SimonGameState) (pid : String) (r : Nat) :
      Reachable decs gs → Reachable decs (eliminatePlayer gs pid r)
  | progress (gs : SimonGameState) (pid : String) :
      Reachable decs gs → Reachable decs (updatePlayerProgress gs pid)

/-- Spec-side winner rule for fully eliminated games, following the
spec's words: the first-encountered entry of the scores map whose score
is at least every score in the map. -/
def firstGreatestScore (scores : List (String × Int)) : Option String :=
  (scores.find? (fun e => scores.all (fun o => o.2 ≤ e.2))).map (·.1)

/-- A submission that is correct and whose timestamp is the minimum
among the correct submissions of `subs`. -/
def isFastestCorrect (subs : List Submission) (s : Submission) : Bool :=
  s.isCorrect && subs.all (fun t => !t.isCorrect || s.timestamp ≤ t.timestamp)

-- =============================================================================
-- Concrete fixtures for witness instances
-- =============================================================================

/-- A concrete player. -/
def mkPlayer (pid : String) (host : Bool) : Player :=
  { id := pid, displayName := pid, avatarId := "a1", isHost := host
    socketId := none, connected := true, lastActivity := 0 }

/-- A still-playing per-player round state. -/
def psPlaying (pid : String) : SimonPlayerState :=
  { playerId := pid, status := .playing, currentInputIndex := 0
    eliminatedAtRound := none }

/-- An eliminated per-player round state. -/
def psOut (pid : String) (r : Nat) : SimonPlayerState :=
  { playerId := pid, status := .eliminated, currentInputIndex := 0
    eliminatedAtRound := some r }

/-- A concrete mid-game Simon state over the given maps. -/
def mkState (pstates : List (String × SimonPlayerState))
    (scores : List (String × Int)) (subs : List (String × Submission)) :
    SimonGameState :=
  { phase := .input, sequence := [.red], round := 1, playerStates := pstates
    currentShowingIndex := 0, timeoutMs := 17000, timeoutAt := none
    timerStartedAt := none, scores := scores, submissions := subs
    roundWinner := none, winnerId := none, difficulty := .medium }

/-- A concrete submission. -/
def mkSub (pid : String) (t : Int) (ok : Bool) : Submission :=
  { playerId := pid, sequence := [.red], timestamp := t, isCorrect := ok }

/-- Two-player state where both submit correctly, P1 earlier. -/
def stBothCorrect : SimonGameState :=
  mkState [("P1", psPlaying "P1"), ("P2", psPlaying "P2")]
    [("P1", 0), ("P2", 0)]
    [("P1", mkSub "P1" 1000 true), ("P2", mkSub "P2" 2000 true)]

/-- Two-player state where both submit incorrectly. -/
def stBothWrong : SimonGameState :=
  mkState [("P1", psPlaying "P1"), ("P2", psPlaying "P2")]
    [("P1", 0), ("P2", 0)]
    [("P1", mkSub "P1" 1000 false), ("P2", mkSub "P2" 2000 false)]

/-- Fully eliminated three-player state with scores A:5, B:10, C:7. -/
def stAllOut : SimonGameState :=
  mkState [("A", psOut "A" 3), ("B", psOut "B" 3), ("C", psOut "C" 3)]
    [("A", 5), ("B", 10), ("C", 7)]
    []

/-- Solo state with its single player still playing. -/
def stSolo : SimonGameState := mkState [("P1", psPlaying "P1")] [("P1", 0)] []

/-- Two-player state with one player eliminated. -/
def stDuo : SimonGameState :=
  mkState [("P1", psPlaying "P1"), ("P2", psOut "P2" 1)]
    [("P1", 2), ("P2", 0)] []

/-- A concrete one-room registry: room "AB12" waiting with host H1 and
guest G1. -/
def roomsWaiting : Rooms :=
  [("AB12", { gameCode := "AB12"
              players := [mkPlayer "H1" true, mkPlayer "G1" false]
              status := .waiting, createdAt := 0 })]

/-- A concrete registry whose room is already active. -/
def roomsActive : Rooms :=
  [("AB12", { gameCode := "AB12"
              players := [mkPlayer "H1" true, mkPlayer "G1" false]
              status := .active, createdAt := 0 })]

/-- A concrete registry whose room is full (4 players). -/
def roomsFull : Rooms :=
  [("AB12", { gameCode := "AB12"
              players := [mkPlayer "H1" true, mkPlayer "G1" false,
                          mkPlayer "G2" false, mkPlayer "G3" false]
              status := .waiting, createdAt := 0 })]

/-- Exactly-one-host invariant of the registry: every stored room is
non-empty and has exactly one player with `isHost = true`. -/
def RoomsInv (rooms : Rooms) : Prop :=
  ∀ e ∈ rooms, e.2.players ≠ [] ∧ e.2.players.countP (·.isHost) = 1

-- =============================================================================
-- Helper lemmas
-- =============================================================================

theorem advance_timeoutMs (decs : Difficulty → Int) (c : Color)
    (gs : SimonGameState) :
    (advanceToNextRound decs c gs).timeoutMs =
      max (getSimonConstantsForDifficulty decs gs.difficulty).MIN_TIMEOUT_MS
        (gs.timeoutMs -
          (getSimonConstantsForDifficulty decs gs.difficulty).TIMEOUT_DECREMENT_MS) :=
  rfl

theorem advanceRounds_timeoutMs (decs : Difficulty → Int) (cs : Nat → Color)
    (k : Nat) (gs : SimonGameState) (m dec : Int)
    (hmdef : (getSimonConstantsForDifficulty decs gs.difficulty).MIN_TIMEOUT_MS = m)
    (hdecdef :
      (getSimonConstantsForDifficulty decs gs.difficulty).TIMEOUT_DECREMENT_MS = dec)
    (hdec : 0 ≤ dec) (hm : m ≤ gs.timeoutMs) :
    (advanceRounds decs cs k gs).timeoutMs = max m (gs.timeoutMs - k * dec) := by
  induction k generalizing gs with
  | zero =>
    simp only [advanceRounds, Nat.cast_zero, zero_mul, sub_zero]
    omega
  | succ k ih =>
    have hstep := advance_timeoutMs decs (cs k) gs
    rw [hmdef, hdecdef] at hstep
    have hdiff : (advanceToNextRound decs (cs k) gs).difficulty = gs.difficulty := rfl
    have := ih (advanceToNextRound decs (cs k) gs)
      (by rw [hdiff, hmdef]) (by rw [hdiff, hdecdef])
      (by rw [hstep]; exact le_max_left _ _)
    rw [advanceRounds, this, hstep]
    have hK : (0 : Int) ≤ (k : Int) * dec :=
      mul_nonneg (Int.natCast_nonneg k) hdec
    have hcast : ((k + 1 : Nat) : Int) * dec = (k : Int) * dec + dec := by
      push_cast
      ring
    rw [hcast]
    generalize (k : Int) * dec = K at hK ⊢
    omega

theorem init_timeoutMs (decs : Difficulty → Int) (choose : Nat → Color)
    (players : List Player) (d : Difficulty) :
    (initializeSimonGame decs choose players d).timeoutMs = 17000 := by
  have h1 : (initializeSimonGame decs choose players d).timeoutMs =
      calculateTimeoutMs
        ((getSimonConstantsForDifficulty decs d).INITIAL_SEQUENCE_LENGTH : Int) :=
    rfl
  rw [h1]
  cases d <;> norm_num [getSimonConstantsForDifficulty, calculateTimeoutMs,
    calculateTimeoutSeconds]

theorem process_preserves_seq_round (gs : SimonGameState) :
    (processRoundSubmissions gs).gameState.sequence = gs.sequence ∧
    (processRoundSubmissions gs).gameState.round = gs.round := by
  unfold processRoundSubmissions
  refine ⟨?_, ?_⟩ <;> (dsimp only; split <;> rfl)

theorem getVal_nil (k : String) : getVal ([] : List (String × α)) k = none := rfl

theorem getVal_cons (e : String × α) (rest : List (String × α)) (k : String) :
    getVal (e :: rest) k = if e.1 = k then some e.2 else getVal rest k := by
  by_cases h : e.1 = k <;> simp [getVal, List.find?, h]

theorem getVal_setVal_self (m : List (String × α)) (k : String) (v : α) :
    getVal (setVal m k v) k = some v := by
  induction m with
  | nil => simp [setVal, getVal_cons]
  | cons e rest ih =>
    by_cases h : e.1 = k
    · simp [setVal, h, getVal_cons]
    · simp [setVal, h, getVal_cons, ih]

theorem getVal_setVal_ne (m : List (String × α)) (k k' : String) (v : α)
    (h : k ≠ k') : getVal (setVal m k v) k' = getVal m k' := by
  induction m with
  | nil => simp [setVal, getVal_cons, getVal_nil, h]
  | cons e rest ih =>
    by_cases he : e.1 = k
    · subst he
      simp [setVal, getVal_cons, h]
    · rw [setVal, if_neg he, getVal_cons, getVal_cons, ih]

theorem getVal_delVal_self (m : List (String × α)) (k : String)
    (hnd : (m.map (·.1)).Nodup) : getVal (delVal m k) k = none := by
  induction m with
  | nil => simp [delVal, getVal_nil]
  | cons e rest ih =>
    simp only [List.map_cons, List.nodup_cons] at hnd
    by_cases he : e.1 = k
    · rw [delVal, if_pos he, getVal, Option.map_eq_none', List.find?_eq_none]
      intro x hx
      simp only [decide_eq_true_eq]
      intro hk
      exact hnd.1 (by
        rw [he, ← hk]
        exact List.mem_map_of_mem (·.1) hx)
    · rw [delVal, if_neg he, getVal_cons, if_neg he]
      exact ih hnd.2

theorem mem_setVal (m : List (String × α)) (k : String) (v : α) (e : String × α)
    (he : e ∈ setVal m k v) : e ∈ m ∨ e = (k, v) := by
  induction m with
  | nil => simpa [setVal] using he
  | cons f rest ih =>
    by_cases hf : f.1 = k
    · simp only [setVal, if_pos hf, List.mem_cons] at he
      rcases he with h | h
      · exact Or.inr h
      · exact Or.inl (List.mem_cons_of_mem f h)
    · simp only [setVal, if_neg hf, List.mem_cons] at he
      rcases he with h | h
      · exact Or.inl (h ▸ List.mem_cons_self f rest)
      · rcases ih h with h' | h'
        · exact Or.inl (List.mem_cons_of_mem f h')
        · exact Or.inr h'

theorem mem_delVal (m : List (String × α)) (k : String) (e : String × α)
    (he : e ∈ delVal m k) : e ∈ m := by
  induction m with
  | nil => simpa [delVal] using he
  | cons f rest ih =>
    by_cases hf : f.1 = k
    · simp only [delVal, if_pos hf] at he
      exact List.mem_cons_of_mem f he
    · simp only [delVal, if_neg hf, List.mem_cons] at he
      rcases he with h | h
      · exact h ▸ List.mem_cons_self f rest
      · exact List.mem_cons_of_mem f (ih h)

theorem elimFold_elims_mono (r : Nat) :
    ∀ (subs : List Submission) (ps : List (String × SimonPlayerState))
      (el : List (String × ElimReason)),
    ∃ l, (List.foldl (elimStep r) (ps, el) subs).2 = el ++ l := by
  intro subs
  induction subs with
  | nil => exact fun ps el => ⟨[], by simp⟩
  | cons s t ih =>
    intro ps el
    rw [List.foldl_cons]
    by_cases hc : s.isCorrect
    · simpa [elimStep, hc] using ih ps el
    · cases hv : getVal ps s.playerId with
      | none => simpa [elimStep, hc, hv] using ih ps el
      | some x =>
        by_cases hst : x.status = .playing
        · obtain ⟨l, hl⟩ := ih
            (setVal ps s.playerId
              { x with status := .eliminated, eliminatedAtRound := some r })
            (el ++ [(s.playerId, .wrong_sequence)])
          refine ⟨(s.playerId, .wrong_sequence) :: l, ?_⟩
          simp only [elimStep, hc, hv, hst]
          simpa using hl
        · simpa [elimStep, hc, hv, hst] using ih ps el

theorem elimFold_getVal_notmem (r : Nat) :
    ∀ (subs : List Submission) (ps : List (String × SimonPlayerState))
      (el : List (String × ElimReason)) (k : String),
    (∀ s ∈ subs, s.playerId ≠ k) →
    getVal (List.foldl (elimStep r) (ps, el) subs).1 k = getVal ps k := by
  intro subs
  induction subs with
  | nil => intro ps el k _; rfl
  | cons s t ih =>
    intro ps el k hk
    rw [List.foldl_cons]
    have hs : s.playerId ≠ k := hk s (List.mem_cons_self s t)
    have ht : ∀ u ∈ t, u.playerId ≠ k := fun u hu => hk u (List.mem_cons_of_mem s hu)
    have hstep : getVal (elimStep r (ps, el) s).1 k = getVal ps k := by
      by_cases hc : s.isCorrect
      · simp [elimStep, hc]
      · cases hv : getVal ps s.playerId with
        | none => simp [elimStep, hc, hv]
        | some x =>
          by_cases hst : x.status = .playing
          · simp [elimStep, hc, hv, hst, getVal_setVal_ne _ _ _ _ hs]
          · simp [elimStep, hc, hv, hst]
    have := ih (elimStep r (ps, el) s).1 (elimStep r (ps, el) s).2 k ht
    rw [Prod.mk.eta] at this
    rw [this, hstep]

theorem elimFold_spec (r : Nat) :
    ∀ (subs : List Submission) (ps : List (String × SimonPlayerState))
      (el : List (String × ElimReason)) (s : Submission) (ps0 : SimonPlayerState),
    (subs.map (·.playerId)).Nodup → s ∈ subs → s.isCorrect = false →
    getVal ps s.playerId = some ps0 → ps0.status = .playing →
    getVal (List.foldl (elimStep r) (ps, el) subs).1 s.playerId
      = some { ps0 with status := .eliminated, eliminatedAtRound := some r } ∧
    (s.playerId, ElimReason.wrong_sequence) ∈
      (List.foldl (elimStep r) (ps, el) subs).2 := by
  intro subs
  induction subs with
  | nil => intro ps el s ps0 _ hmem; cases hmem
  | cons u t ih =>
    intro ps el s ps0 hnd hmem hcor hget hstat
    simp only [List.map_cons, List.nodup_cons] at hnd
    rw [List.foldl_cons]
    rcases List.mem_cons.mp hmem with rfl | hmt
    · have hstep : elimStep r (ps, el) s =
          (setVal ps s.playerId
            { ps0 with status := .eliminated, eliminatedAtRound := some r },
           el ++ [(s.playerId, .wrong_sequence)]) := by
        simp [elimStep, hcor, hget, hstat]
      rw [hstep]
      have hnot : ∀ v ∈ t, v.playerId ≠ s.playerId := by
        intro v hv heq
        exact hnd.1 (heq ▸ List.mem_map_of_mem (·.playerId) hv)
      constructor
      · rw [elimFold_getVal_notmem r t _ _ _ hnot, getVal_setVal_self]
      · obtain ⟨l, hl⟩ := elimFold_elims_mono r t
          (setVal ps s.playerId
            { ps0 with status := .eliminated, eliminatedAtRound := some r })
          (el ++ [(s.playerId, .wrong_sequence)])
        rw [hl]
        exact List.mem_append_left _
          (List.mem_append_right _ (List.mem_singleton_self _))
    · have hne : u.playerId ≠ s.playerId := by
        intro heq
        exact hnd.1 (heq ▸ List.mem_map_of_mem (·.playerId) hmt)
      have hstep1 : getVal (elimStep r (ps, el) u).1 s.playerId = some ps0 := by
        by_cases hc : u.isCorrect
        · simpa [elimStep, hc] using hget
        · cases hv : getVal ps u.playerId with
          | none => simpa [elimStep, hc, hv] using hget
          | some x =>
            by_cases hst : x.status = .playing
            · simp only [elimStep, hc, hv, hst]
              simpa [getVal_setVal_ne _ _ _ _ hne] using hget
            · simpa [elimStep, hc, hv, hst] using hget
      have := ih (elimStep r (ps, el) u).1 (elimStep r (ps, el) u).2 s ps0
        hnd.2 hmt hcor hstep1 hstat
      simpa [Prod.mk.eta] using this

theorem orderedInsert_all_le (x : Submission) (l : List Submission)
    (h : ∀ b ∈ l, subLe x b) : l.orderedInsert subLe x = x :: l := by
  cases l with
  | nil => rfl
  | cons b t => exact List.orderedInsert_of_le subLe t (h b (List.mem_cons_self b t))

theorem filter_orderedInsert_neg (p : Submission → Bool) (x : Submission)
    (l : List Submission) (hx : p x = false) :
    (l.orderedInsert subLe x).filter p = l.filter p := by
  induction l with
  | nil => simp [List.orderedInsert, hx]
  | cons b t ih =>
    by_cases h : subLe x b
    · simp only [List.orderedInsert, if_pos h]
      simp [List.filter_cons, hx]
    · simp only [List.orderedInsert, if_neg h]
      rw [List.filter_cons, List.filter_cons]
      cases hp : p b <;> simp [ih]

theorem filter_insertionSort_min :
    ∀ (l : List Submission) (m : Int), (∀ x ∈ l, m ≤ x.timestamp) →
    (l.insertionSort subLe).filter (fun s => s.timestamp = m) =
      l.filter (fun s => s.timestamp = m) := by
  intro l
  induction l with
  | nil => intro m _; rfl
  | cons x t ih =>
    intro m hall
    have ht : ∀ y ∈ t, m ≤ y.timestamp := fun y hy =>
      hall y (List.mem_cons_of_mem x hy)
    simp only [List.insertionSort]
    by_cases hx : x.timestamp = m
    · have hle : ∀ b ∈ t.insertionSort subLe, subLe x b := by
        intro b hb
        have hbt : b ∈ t := (List.mem_insertionSort subLe).mp hb
        have := ht b hbt
        unfold subLe
        omega
      rw [orderedInsert_all_le x _ hle, List.filter_cons, List.filter_cons,
        ih m ht]
    · rw [filter_orderedInsert_neg _ x _ (by simp [hx]), ih m ht,
        List.filter_cons]
      simp [hx]

theorem insertionSort_head_min (l : List Submission) (fastest : Submission)
    (rest : List Submission) (h : l.insertionSort subLe = fastest :: rest) :
    ∀ x ∈ l, fastest.timestamp ≤ x.timestamp := by
  intro x hx
  have hs : List.Sorted subLe (fastest :: rest) :=
    h ▸ List.sorted_insertionSort subLe l
  have hx' : x ∈ fastest :: rest := by
    rw [← h]
    exact (List.mem_insertionSort subLe).mpr hx
  rcases List.mem_cons.mp hx' with rfl | hxr
  · exact le_refl _
  · exact List.rel_of_sorted_cons hs x hxr

theorem winners_characterization (subs : List Submission) (fastest : Submission)
    (rest : List Submission)
    (h : (subs.filter (·.isCorrect)).insertionSort subLe = fastest :: rest) :
    (fastest :: rest).filter (fun s => s.timestamp = fastest.timestamp)
      = subs.filter (isFastestCorrect subs) := by
  have hmin : ∀ x ∈ subs.filter (·.isCorrect), fastest.timestamp ≤ x.timestamp :=
    insertionSort_head_min _ fastest rest h
  have hfm : fastest ∈ subs.filter (·.isCorrect) := by
    have : fastest ∈ (subs.filter (·.isCorrect)).insertionSort subLe := by
      rw [h]
      exact List.mem_cons_self _ _
    exact (List.mem_insertionSort subLe).mp this
  have hfc : fastest.isCorrect = true := (List.mem_filter.mp hfm).2
  have hfs : fastest ∈ subs := (List.mem_filter.mp hfm).1
  rw [← h, filter_insertionSort_min _ fastest.timestamp hmin, List.filter_filter]
  apply List.filter_congr
  intro s hs
  cases hcor : s.isCorrect with
  | false => simp [isFastestCorrect, hcor]
  | true =>
    simp only [isFastestCorrect, hcor, Bool.true_and, Bool.and_true]
    rw [Bool.eq_iff_iff]
    simp only [decide_eq_true_eq, List.all_eq_true, Bool.or_eq_true,
      Bool.not_eq_true', decide_eq_true_eq]
    constructor
    · intro hts u hu
      rcases hc : u.isCorrect with _ | _
      · exact Or.inl rfl
      · refine Or.inr ?_
        rw [hts]
        exact hmin u (List.mem_filter.mpr ⟨hu, hc⟩)
    · intro hall
      have h1 : fastest.timestamp ≤ s.timestamp :=
        hmin s (List.mem_filter.mpr ⟨hs, hcor⟩)
      have h2 := hall fastest hfs
      rcases h2 with h2 | h2
      · rw [hfc] at h2
        cases h2
      · omega

theorem scoreFold_notmem :
    ∀ (ws : List Submission) (m : List (String × Int)) (k : String),
    (∀ w ∈ ws, w.playerId ≠ k) →
    getVal (ws.foldl scoreStep m) k = getVal m k := by
  intro ws
  induction ws with
  | nil => intro m k _; rfl
  | cons w t ih =>
    intro m k hk
    rw [List.foldl_cons, ih _ _ (fun u hu => hk u (List.mem_cons_of_mem w hu))]
    exact getVal_setVal_ne _ _ _ _ (hk w (List.mem_cons_self w t))

theorem scoreFold_mem :
    ∀ (ws : List Submission) (m : List (String × Int)) (k : String),
    (ws.map (·.playerId)).Nodup → (∃ w ∈ ws, w.playerId = k) →
    getVal (ws.foldl scoreStep m) k = some ((getVal m k).getD 0 + 1) := by
  intro ws
  induction ws with
  | nil =>
    rintro m k _ ⟨w, hw, _⟩
    cases hw
  | cons w t ih =>
    intro m k hnd hex
    simp only [List.map_cons, List.nodup_cons] at hnd
    rw [List.foldl_cons]
    by_cases hwk : w.playerId = k
    · have hnot : ∀ u ∈ t, u.playerId ≠ k := fun u hu heq =>
        hnd.1 (hwk ▸ heq ▸ List.mem_map_of_mem (·.playerId) hu)
      rw [scoreFold_notmem t _ k hnot]
      simp only [scoreStep, hwk, getVal_setVal_self]
    · obtain ⟨u, hu, huk⟩ := hex
      rcases List.mem_cons.mp hu with rfl | hut
      · exact absurd huk hwk
      rw [ih (scoreStep m w) k hnd.2 ⟨u, hut, huk⟩]
      simp only [scoreStep, getVal_setVal_ne _ _ _ _ hwk]

theorem process_playerStates (gs : SimonGameState) :
    (processRoundSubmissions gs).gameState.playerStates =
      (List.foldl (elimStep gs.round) (gs.playerStates, [])
        (gs.submissions.map (·.2))).1 := by
  unfold processRoundSubmissions
  dsimp only
  split <;> rfl

theorem process_eliminations (gs : SimonGameState) :
    (processRoundSubmissions gs).eliminations =
      (List.foldl (elimStep gs.round) (gs.playerStates, [])
        (gs.submissions.map (·.2))).2 := by
  unfold processRoundSubmissions
  dsimp only
  split <;> rfl

theorem process_submissions (gs : SimonGameState) :
    (processRoundSubmissions gs).gameState.submissions = [] := by
  unfold processRoundSubmissions
  dsimp only
  split <;> rfl

theorem process_empty (gs : SimonGameState)
    (h : ((gs.submissions.map (·.2)).filter (·.isCorrect)).insertionSort subLe
        = []) :
    (processRoundSubmissions gs).gameState.scores = gs.scores ∧
    (processRoundSubmissions gs).roundWinner = none := by
  unfold processRoundSubmissions
  dsimp only
  rw [h]
  exact ⟨rfl, rfl⟩

theorem process_nonempty (gs : SimonGameState) (fastest : Submission)
    (rest : List Submission)
    (h : ((gs.submissions.map (·.2)).filter (·.isCorrect)).insertionSort subLe
        = fastest :: rest) :
    (processRoundSubmissions gs).gameState.scores =
      ((fastest :: rest).filter
        (fun s => s.timestamp = fastest.timestamp)).foldl scoreStep gs.scores ∧
    (processRoundSubmissions gs).roundWinner =
      ((fastest :: rest).filter
        (fun s => s.timestamp = fastest.timestamp)).head?.map
        (fun w => (w.playerId,
          (getVal (((fastest :: rest).filter
              (fun s => s.timestamp = fastest.timestamp)).foldl scoreStep
              gs.scores)
            w.playerId).getD 0)) := by
  unfold processRoundSubmissions
  dsimp only
  rw [h]
  dsimp only
  have hw : (fastest :: rest).filter
      (fun s => decide (s.timestamp = fastest.timestamp))
      = fastest :: rest.filter (fun s => decide (s.timestamp = fastest.timestamp)) := by
    simp [List.filter_cons]
  rw [hw]
  exact ⟨rfl, rfl⟩

-- =============================================================================
-- Claim theorems
-- =============================================================================

/-- C9: for every natural number `n`, `calculateTimeoutMs n = 1000 × (15 + 2n)`;
in particular rounds 1, 5, 10 give 17000, 25000, 35000 ms. -/
theorem calculateTimeoutMs_closed_form :
    (∀ n : Nat, calculateTimeoutMs (n : Int) = 1000 * (15 + 2 * (n : Int))) ∧
    calculateTimeoutMs 1 = 17000 ∧ calculateTimeoutMs 5 = 25000 ∧
    calculateTimeoutMs 10 = 35000 := by
  refine ⟨fun n => ?_, by decide, by decide, by decide⟩
  unfold calculateTimeoutMs calculateTimeoutSeconds
  ring

/-- C10: for every player list and every difficulty, `initializeSimonGame`
sets `timeoutMs = calculateTimeoutMs 1 = 17000` (the initial sequence
length is 1 for every difficulty), so the difficulty's `initialTimeoutMs`
preset has no effect on the first round's timeout. -/
theorem initializeSimonGame_first_timeout (decs : Difficulty → Int)
    (choose : Nat → Color) (players : List Player) (d : Difficulty) :
    (initializeSimonGame decs choose players d).timeoutMs = 17000 ∧
    (initializeSimonGame decs choose players d).timeoutMs = calculateTimeoutMs 1 ∧
    (getSimonConstantsForDifficulty decs d).INITIAL_SEQUENCE_LENGTH = 1 := by
  have h1 : (initializeSimonGame decs choose players d).timeoutMs =
      calculateTimeoutMs
        ((getSimonConstantsForDifficulty decs d).INITIAL_SEQUENCE_LENGTH : Int) :=
    rfl
  refine ⟨init_timeoutMs decs choose players d, ?_, ?_⟩
  · rw [h1]
    cases d <;> rfl
  · cases d <;> rfl

/-- C2: `shouldGameEnd` distinguishes solo from multiplayer: with exactly
one player it is `false` while that player is `playing` and `true` exactly
when zero players are `playing`; with two or more players it is `true` iff
at most one player is `playing`. -/
theorem shouldGameEnd_solo_vs_multiplayer (gs : SimonGameState) :
    (gs.playerStates.length = 1 →
      ((∀ e ∈ gs.playerStates, e.2.status = .playing) →
        shouldGameEnd gs = false) ∧
      (shouldGameEnd gs = true ↔ getActivePlayerCount gs = 0)) ∧
    (2 ≤ gs.playerStates.length →
      (shouldGameEnd gs = true ↔ getActivePlayerCount gs ≤ 1)) := by
  constructor
  · intro h1
    obtain ⟨e, he⟩ := List.length_eq_one.mp h1
    constructor
    · intro hall
      have hp := hall e (by rw [he]; exact List.mem_singleton_self e)
      simp [shouldGameEnd, he, hp]
    · simp [shouldGameEnd, getActivePlayerCount, he]
  · intro h2
    have hne : gs.playerStates.length ≠ 1 := by omega
    simp [shouldGameEnd, getActivePlayerCount, hne]

/-- Witness for C2 at concrete solo and two-player states. -/
theorem shouldGameEnd_solo_vs_multiplayer_witness :
    shouldGameEnd stSolo = false ∧
    (shouldGameEnd stDuo = true ↔ getActivePlayerCount stDuo ≤ 1) :=
  ⟨((shouldGameEnd_solo_vs_multiplayer stSolo).1 (by decide)).1 (by decide),
   (shouldGameEnd_solo_vs_multiplayer stDuo).2 (by decide)⟩

/-- C1 counterexample: at difficulty `medium` and round `n = 1` (no
advances), the state's `timeoutMs` is 17000, not
`max(minTimeoutMs, initialTimeoutMs − (n−1)×timeoutDecrementMs) = 5000`,
so the claimed formula based on the difficulty's `initialTimeoutMs` fails. -/
theorem timeout_formula_counterexample :
    ¬ ((advanceRounds (fun _ => 500) (fun _ => Color.red) (1 - 1)
          (initializeSimonGame (fun _ => 500) (fun _ => Color.red)
            [mkPlayer "P1" true] .medium)).timeoutMs
        = max (getSimonConstantsForDifficulty (fun _ => 500) .medium).MIN_TIMEOUT_MS
            ((getSimonConstantsForDifficulty (fun _ => 500) .medium).INITIAL_TIMEOUT_MS
              - ((1 - 1 : Nat) : Int) *
                (getSimonConstantsForDifficulty (fun _ => 500) .medium).TIMEOUT_DECREMENT_MS)) := by
  decide

/-- C1 amended: the round-`n` timeout is
`max(minTimeoutMs(d), 17000 − (n−1)×timeoutDecrementMs(d))` — the chain of
decrements starts from the round-1 timeout `calculateTimeoutMs(1) = 17000`,
not from the difficulty's `initialTimeoutMs` preset (for any nonnegative
decrement preset). -/
theorem timeout_after_rounds (decs : Difficulty → Int) (cs choose : Nat → Color)
    (players : List Player) (d : Difficulty) (n : Nat)
    (hdec : 0 ≤ decs d) (hn : 1 ≤ n) :
    (advanceRounds decs cs (n - 1)
        (initializeSimonGame decs choose players d)).timeoutMs =
      max (getSimonConstantsForDifficulty decs d).MIN_TIMEOUT_MS
        (17000 - ((n - 1 : Nat) : Int) *
          (getSimonConstantsForDifficulty decs d).TIMEOUT_DECREMENT_MS) := by
  have hdc : (getSimonConstantsForDifficulty decs d).TIMEOUT_DECREMENT_MS = decs d := by
    cases d <;> rfl
  have hmle : (getSimonConstantsForDifficulty decs d).MIN_TIMEOUT_MS ≤ (17000 : Int) := by
    cases d <;> norm_num [getSimonConstantsForDifficulty]
  have ht := init_timeoutMs decs choose players d
  have := advanceRounds_timeoutMs decs cs (n - 1)
    (initializeSimonGame decs choose players d)
    (getSimonConstantsForDifficulty decs d).MIN_TIMEOUT_MS (decs d)
    rfl hdc hdec (by rw [ht]; exact hmle)
  rw [this, ht, hdc]

/-- Witness for C1's amended theorem at difficulty medium, decrement 500,
round 3. -/
theorem timeout_after_rounds_witness :
    ((0 : Int) ≤ 500 ∧ 1 ≤ 3) ∧
    (advanceRounds (fun _ => 500) (fun _ => Color.red) (3 - 1)
        (initializeSimonGame (fun _ => 500) (fun _ => Color.red)
          [mkPlayer "P1" true] .medium)).timeoutMs =
      max (getSimonConstantsForDifficulty (fun _ => 500) .medium).MIN_TIMEOUT_MS
        (17000 - ((3 - 1 : Nat) : Int) *
          (getSimonConstantsForDifficulty (fun _ => 500) .medium).TIMEOUT_DECREMENT_MS) :=
  ⟨⟨by decide, by decide⟩,
   timeout_after_rounds (fun _ => 500) (fun _ => Color.red) (fun _ => Color.red)
     [mkPlayer "P1" true] .medium 3 (by decide) (by decide)⟩

/-- C3: postcondition of `processRoundSubmissions`: every incorrect
still-playing submitter is eliminated at the current round and recorded
with reason `wrong_sequence`; every correct submission at the minimum
timestamp among correct submissions gains exactly +1 score; all other
players' scores are unchanged; the reported round winner is the first
minimum-timestamp correct submitter in timestamp-then-insertion order;
the returned state's submissions map is empty.  In particular,
`{P1: correct@1000, P2: correct@2000}` gives winner P1 with +1, P2 +0
and no eliminations, and `{P1: wrong, P2: wrong}` eliminates both with
a null round winner. -/
theorem processRoundSubmissions_spec (gs : SimonGameState)
    (hnd : ((gs.submissions.map (·.2)).map (·.playerId)).Nodup) :
    (∀ s ∈ gs.submissions.map (·.2), s.isCorrect = false →
      ∀ ps0, getVal gs.playerStates s.playerId = some ps0 →
        ps0.status = .playing →
        getVal (processRoundSubmissions gs).gameState.playerStates s.playerId
          = some { ps0 with
                   status := .eliminated
                   eliminatedAtRound := some gs.round } ∧
        (s.playerId, ElimReason.wrong_sequence) ∈
          (processRoundSubmissions gs).eliminations) ∧
    (∀ s ∈ gs.submissions.map (·.2),
      isFastestCorrect (gs.submissions.map (·.2)) s = true →
        getVal (processRoundSubmissions gs).gameState.scores s.playerId
          = some ((getVal gs.scores s.playerId).getD 0 + 1)) ∧
    (∀ k : String, (∀ s ∈ gs.submissions.map (·.2),
        isFastestCorrect (gs.submissions.map (·.2)) s = true →
          s.playerId ≠ k) →
      getVal (processRoundSubmissions gs).gameState.scores k
        = getVal gs.scores k) ∧
    ((processRoundSubmissions gs).roundWinner.map (·.1)
      = ((gs.submissions.map (·.2)).filter
          (isFastestCorrect (gs.submissions.map (·.2)))).head?.map
          (·.playerId)) ∧
    (processRoundSubmissions gs).gameState.submissions = [] ∧
    ((processRoundSubmissions stBothCorrect).roundWinner = some ("P1", 1) ∧
     getVal (processRoundSubmissions stBothCorrect).gameState.scores "P1"
       = some 1 ∧
     getVal (processRoundSubmissions stBothCorrect).gameState.scores "P2"
       = some 0 ∧
     (processRoundSubmissions stBothCorrect).eliminations = []) ∧
    ((getVal (processRoundSubmissions stBothWrong).gameState.playerStates
        "P1").map (·.status) = some .eliminated ∧
     (getVal (processRoundSubmissions stBothWrong).gameState.playerStates
        "P2").map (·.status) = some .eliminated ∧
     (processRoundSubmissions stBothWrong).eliminations =
       [("P1", .wrong_sequence), ("P2", .wrong_sequence)] ∧
     (processRoundSubmissions stBothWrong).roundWinner = none) := by
  refine ⟨?_, ?_, ?_, ?_, process_submissions gs, by decide, by decide⟩
  · intro s hs hcor ps0 hget hstat
    rw [process_playerStates, process_eliminations]
    exact elimFold_spec gs.round (gs.submissions.map (·.2)) gs.playerStates []
      s ps0 hnd hs hcor hget hstat
  · intro s hs hfast
    have hcor : s.isCorrect = true := by
      simp only [isFastestCorrect, Bool.and_eq_true] at hfast
      exact hfast.1
    cases hsort : ((gs.submissions.map (·.2)).filter
        (·.isCorrect)).insertionSort subLe with
    | nil =>
      exfalso
      have hlen := List.length_insertionSort subLe
        ((gs.submissions.map (·.2)).filter (·.isCorrect))
      rw [hsort] at hlen
      have hempty := List.length_eq_zero.mp hlen.symm
      have hsm : s ∈ (gs.submissions.map (·.2)).filter (·.isCorrect) :=
        List.mem_filter.mpr ⟨hs, hcor⟩
      rw [hempty] at hsm
      cases hsm
    | cons fastest rest =>
      obtain ⟨hscores, _⟩ := process_nonempty gs fastest rest hsort
      rw [hscores, winners_characterization _ fastest rest hsort]
      apply scoreFold_mem
      · exact List.Nodup.sublist ((List.filter_sublist _).map _) hnd
      · exact ⟨s, List.mem_filter.mpr ⟨hs, hfast⟩, rfl⟩
  · intro k hk
    cases hsort : ((gs.submissions.map (·.2)).filter
        (·.isCorrect)).insertionSort subLe with
    | nil => rw [(process_empty gs hsort).1]
    | cons fastest rest =>
      obtain ⟨hscores, _⟩ := process_nonempty gs fastest rest hsort
      rw [hscores, winners_characterization _ fastest rest hsort]
      apply scoreFold_notmem
      intro w hw
      have hm := List.mem_filter.mp hw
      exact hk w hm.1 hm.2
  · cases hsort : ((gs.submissions.map (·.2)).filter
        (·.isCorrect)).insertionSort subLe with
    | nil =>
      have hlen := List.length_insertionSort subLe
        ((gs.submissions.map (·.2)).filter (·.isCorrect))
      rw [hsort] at hlen
      have hempty := List.length_eq_zero.mp hlen.symm
      rw [(process_empty gs hsort).2]
      have hnone : (gs.submissions.map (·.2)).filter
          (isFastestCorrect (gs.submissions.map (·.2))) = [] := by
        rw [List.filter_eq_nil_iff]
        intro s hsm hf
        have hcor : s.isCorrect = true := by
          simp only [isFastestCorrect, Bool.and_eq_true] at hf
          exact hf.1
        have hsm' : s ∈ (gs.submissions.map (·.2)).filter (·.isCorrect) :=
          List.mem_filter.mpr ⟨hsm, hcor⟩
        rw [hempty] at hsm'
        cases hsm'
      rw [hnone]
      rfl
    | cons fastest rest =>
      obtain ⟨_, hrw⟩ := process_nonempty gs fastest rest hsort
      rw [hrw, winners_characterization _ fastest rest hsort]
      cases ((gs.submissions.map (·.2)).filter
          (isFastestCorrect (gs.submissions.map (·.2)))).head? <;> rfl

/-- Witness for C3 at the concrete two-player both-correct state. -/
theorem processRoundSubmissions_spec_witness :
    getVal (processRoundSubmissions stBothCorrect).gameState.scores "P1"
      = some ((getVal stBothCorrect.scores "P1").getD 0 + 1) :=
  (processRoundSubmissions_spec stBothCorrect (by decide)).2.1
    (mkSub "P1" 1000 true) (by decide) (by decide)

/-- C4: `advanceToNextRound` appends exactly one color to the sequence,
increments the round by exactly 1, zeroes every player's input index, and
clears submissions and round winner; consequently every state reachable
from `initializeSimonGame` satisfies `sequence.length = round`. -/
theorem advanceToNextRound_spec :
    (∀ (decs : Difficulty → Int) (c : Color) (gs : SimonGameState),
      (advanceToNextRound decs c gs).sequence = gs.sequence ++ [c] ∧
      (advanceToNextRound decs c gs).round = gs.round + 1 ∧
      (∀ e ∈ (advanceToNextRound decs c gs).playerStates,
        e.2.currentInputIndex = 0) ∧
      (advanceToNextRound decs c gs).submissions = [] ∧
      (advanceToNextRound decs c gs).roundWinner = none) ∧
    (∀ (decs : Difficulty → Int) (gs : SimonGameState),
      Reachable decs gs → gs.sequence.length = gs.round) := by
  constructor
  · intro decs c gs
    refine ⟨rfl, rfl, ?_, rfl, rfl⟩
    intro e he
    simp only [advanceToNextRound, List.mem_map] at he
    obtain ⟨a, _, rfl⟩ := he
    rfl
  · intro decs gs h
    induction h with
    | init choose players d => cases d <;>
        simp [initializeSimonGame, generateSequence, getSimonConstantsForDifficulty]
    | advance c gs _ ih =>
      simp only [advanceToNextRound, extendSequence, List.length_append,
        List.length_singleton]
      omega
    | process gs _ ih =>
      rw [(process_preserves_seq_round gs).1, (process_preserves_seq_round gs).2]
      exact ih
    | eliminate gs pid r _ ih =>
      unfold eliminatePlayer
      cases getVal gs.playerStates pid <;> exact ih
    | progress gs pid _ ih =>
      unfold updatePlayerProgress
      cases getVal gs.playerStates pid <;> exact ih

theorem find?_of_split (pre post : List (String × Int)) (a : String × Int)
    (p : (String × Int) → Bool)
    (hpre : ∀ x ∈ pre, p x = false) (ha : p a = true) :
    (pre ++ a :: post).find? p = some a := by
  induction pre with
  | nil => simp [List.find?_cons, ha]
  | cons x t ih =>
    have hx := hpre x (List.mem_cons_self x t)
    rw [List.cons_append, List.find?_cons, hx]
    exact ih (fun y hy => hpre y (List.mem_cons_of_mem _ hy))

theorem winnerFold_cases :
    ∀ (l : List (String × Int)), (∀ e ∈ l, 0 ≤ e.2) →
    (l = [] ∧
      (List.foldl (fun (acc : Int × Option String) (e : String × Int) =>
        if e.2 > acc.1 then (e.2, some e.1) else acc)
        ((-1 : Int), (none : Option String)) l) = (-1, none)) ∨
    (∃ pre a post, l = pre ++ a :: post ∧
      (List.foldl (fun (acc : Int × Option String) (e : String × Int) =>
        if e.2 > acc.1 then (e.2, some e.1) else acc)
        ((-1 : Int), (none : Option String)) l) = (a.2, some a.1) ∧
      (∀ x ∈ pre, x.2 < a.2) ∧ (∀ x ∈ l, x.2 ≤ a.2)) := by
  intro l
  induction l using List.reverseRecOn with
  | nil => exact fun _ => Or.inl ⟨rfl, rfl⟩
  | append_singleton l e ih =>
    intro hall
    have hl : ∀ x ∈ l, 0 ≤ x.2 := fun x hx =>
      hall x (List.mem_append_left _ hx)
    have he : 0 ≤ e.2 := hall e (List.mem_append_right _ (List.mem_singleton_self _))
    rcases ih hl with ⟨hnil, hf⟩ | ⟨pre, a, post, hsplit, hf, hpre, hmax⟩
    · subst hnil
      right
      refine ⟨[], e, [], rfl, ?_, by simp, ?_⟩
      · simp only [List.nil_append, List.foldl_cons, List.foldl_nil]
        rw [if_pos (by omega)]
      · intro x hx
        simp only [List.nil_append, List.mem_singleton] at hx
        subst hx
        exact le_refl _
    · right
      rw [List.foldl_append, hf]
      by_cases hgt : e.2 > a.2
      · refine ⟨l, e, [], rfl, ?_, ?_, ?_⟩
        · simp only [List.foldl_cons, List.foldl_nil]
          rw [if_pos hgt]
        · intro x hx
          have := hmax x hx
          omega
        · intro x hx
          rcases List.mem_append.mp hx with hx | hx
          · have := hmax x hx
            omega
          · simp only [List.mem_singleton] at hx
            subst hx
            exact le_refl _
      · refine ⟨pre, a, post ++ [e], by rw [hsplit]; simp, ?_, hpre, ?_⟩
        · simp only [List.foldl_cons, List.foldl_nil]
          rw [if_neg hgt]
        · intro x hx
          rcases List.mem_append.mp hx with hx | hx
          · exact hmax x hx
          · simp only [List.mem_singleton] at hx
            subst hx
            omega

theorem winnerFold_spec (l : List (String × Int)) (hall : ∀ e ∈ l, 0 ≤ e.2) :
    (List.foldl (fun (acc : Int × Option String) (e : String × Int) =>
        if e.2 > acc.1 then (e.2, some e.1) else acc)
      ((-1 : Int), (none : Option String)) l).2 = firstGreatestScore l := by
  rcases winnerFold_cases l hall with ⟨hnil, hf⟩ | ⟨pre, a, post, hsplit, hf, hpre, hmax⟩
  · subst hnil
    rw [hf]
    rfl
  · rw [hf]
    unfold firstGreatestScore
    rw [hsplit, find?_of_split pre post a _ ?hpre ?ha]
    · rfl
    case hpre =>
      intro x hx
      have hxa : x.2 < a.2 := hpre x hx
      have hmem : a ∈ l := by
        rw [hsplit]
        exact List.mem_append_right _ (List.mem_cons_self _ _)
      rw [← hsplit]
      apply Bool.eq_false_iff.mpr
      intro hallx
      rw [List.all_eq_true] at hallx
      have := hallx a hmem
      simp only [decide_eq_true_eq] at this
      omega
    case ha =>
      rw [← hsplit, List.all_eq_true]
      intro o ho
      simp only [decide_eq_true_eq]
      exact hmax o ho

/-- Witness for C4's reachability invariant at a concrete initial state. -/
theorem advanceToNextRound_spec_witness :
    (initializeSimonGame (fun _ => 0) (fun _ => Color.red)
      [mkPlayer "P1" true] .medium).sequence.length =
    (initializeSimonGame (fun _ => 0) (fun _ => Color.red)
      [mkPlayer "P1" true] .medium).round :=
  advanceToNextRound_spec.2 (fun _ => 0) _
    (Reachable.init (fun _ => Color.red) [mkPlayer "P1" true] .medium)

/-- C5: `getWinner` returns the sole still-playing player's id when
exactly one player is `playing`; when zero players are `playing` it
returns the first-encountered entry of the scores map holding the
greatest score (e.g. scores A:5, B:10, C:7 with all eliminated give B). -/
theorem getWinner_spec (gs : SimonGameState) :
    (∀ a, (gs.playerStates.map (·.2)).filter (fun s => s.status = .playing)
        = [a] →
      getWinner gs = some a.playerId) ∧
    ((gs.playerStates.map (·.2)).filter (fun s => s.status = .playing) = [] →
      (∀ e ∈ gs.scores, 0 ≤ e.2) →
      getWinner gs = firstGreatestScore gs.scores) ∧
    getWinner stAllOut = some "B" := by
  refine ⟨?_, ?_, by decide⟩
  · intro a ha
    simp [getWinner, ha]
  · intro hf hpos
    simp only [getWinner, hf, List.length_nil, one_ne_zero, if_false]
    simpa using winnerFold_spec gs.scores hpos

/-- Witness for C5 at a one-active-player state and a fully eliminated
state. -/
theorem getWinner_spec_witness :
    getWinner stDuo = some "P1" ∧
    getWinner stAllOut = firstGreatestScore stAllOut.scores :=
  ⟨(getWinner_spec stDuo).1 (psPlaying "P1") (by decide),
   (getWinner_spec stAllOut).2.1 (by decide) (by decide)⟩

/-- C6: `joinRoom` fails in exactly three ordered cases — unknown code
("Room not found"), room not waiting ("Game already in progress"), room
at the 4-player maximum ("Room is full") — leaving the room map
unchanged; otherwise it appends exactly one non-host player with the
fresh id to the end of the room's player list and returns the room. -/
theorem joinRoom_spec (rooms : Rooms) (gameCode newId : String)
    (info : PlayerInfo) (now : Int) :
    (getVal rooms gameCode = none →
      joinRoom rooms gameCode newId info now = .error "Room not found" ∧
      joinRoomRun rooms gameCode newId info now
        = (rooms, .error "Room not found")) ∧
    (∀ room, getVal rooms gameCode = some room → room.status ≠ .waiting →
      joinRoom rooms gameCode newId info now
        = .error "Game already in progress" ∧
      joinRoomRun rooms gameCode newId info now
        = (rooms, .error "Game already in progress")) ∧
    (∀ room, getVal rooms gameCode = some room → room.status = .waiting →
      MAX_PLAYERS ≤ room.players.length →
      joinRoom rooms gameCode newId info now = .error "Room is full" ∧
      joinRoomRun rooms gameCode newId info now
        = (rooms, .error "Room is full")) ∧
    (∀ room, getVal rooms gameCode = some room → room.status = .waiting →
      room.players.length < MAX_PLAYERS →
      ∃ p, p.isHost = false ∧ p.id = newId ∧
        joinRoom rooms gameCode newId info now =
          .ok (setVal rooms gameCode { room with players := room.players ++ [p] },
               { room with players := room.players ++ [p] })) := by
  refine ⟨?_, ?_, ?_, ?_⟩
  · intro h
    constructor
    · unfold joinRoom
      rw [h]
    · unfold joinRoomRun joinRoom
      rw [h]
  · intro room h hst
    constructor
    · unfold joinRoom
      rw [h]
      dsimp only
      rw [if_pos hst]
    · unfold joinRoomRun joinRoom
      rw [h]
      dsimp only
      rw [if_pos hst]
  · intro room h hst hfull
    have h1 : ¬(room.status ≠ .waiting) := fun hc => hc hst
    constructor
    · unfold joinRoom
      rw [h]
      dsimp only
      rw [if_neg h1, if_pos hfull]
    · unfold joinRoomRun joinRoom
      rw [h]
      dsimp only
      rw [if_neg h1, if_pos hfull]
  · intro room h hst hlt
    refine ⟨{ id := newId, displayName := info.displayName
              avatarId := info.avatarId, isHost := false
              socketId := none, connected := false, lastActivity := now },
            rfl, rfl, ?_⟩
    unfold joinRoom
    rw [h]
    dsimp only
    rw [if_neg (fun hc => hc hst), if_neg (not_le.mpr hlt)]

/-- Witness for C6 at concrete registries exercising all three failure
branches. -/
theorem joinRoom_spec_witness :
    joinRoom roomsWaiting "XXXX" "N1" ⟨"n", "a"⟩ 5 = .error "Room not found" ∧
    joinRoom roomsActive "AB12" "N1" ⟨"n", "a"⟩ 5
      = .error "Game already in progress" ∧
    joinRoom roomsFull "AB12" "N1" ⟨"n", "a"⟩ 5 = .error "Room is full" :=
  ⟨((joinRoom_spec roomsWaiting "XXXX" "N1" ⟨"n", "a"⟩ 5).1 (by decide)).1,
   ((joinRoom_spec roomsActive "AB12" "N1" ⟨"n", "a"⟩ 5).2.1
      { gameCode := "AB12"
        players := [mkPlayer "H1" true, mkPlayer "G1" false]
        status := .active, createdAt := 0 } (by decide) (by decide)).1,
   ((joinRoom_spec roomsFull "AB12" "N1" ⟨"n", "a"⟩ 5).2.2.1
      { gameCode := "AB12"
        players := [mkPlayer "H1" true, mkPlayer "G1" false,
                    mkPlayer "G2" false, mkPlayer "G3" false]
        status := .waiting, createdAt := 0 } (by decide) (by decide)
      (by decide)).1⟩

theorem removeFirst_eq_none (pid : String) :
    ∀ (l : List Player), (∀ p ∈ l, p.id ≠ pid) → removeFirst pid l = none := by
  intro l
  induction l with
  | nil => intro _; rfl
  | cons p t ih =>
    intro h
    have hp : ¬(p.id = pid) := h p (List.mem_cons_self p t)
    simp only [removeFirst, if_neg hp]
    rw [ih (fun q hq => h q (List.mem_cons_of_mem _ hq))]
    rfl

theorem removeFirst_split (pid : String) :
    ∀ (l : List Player) (p : Player) (rest : List Player),
    removeFirst pid l = some (p, rest) →
    ∃ pre post, l = pre ++ p :: post ∧ rest = pre ++ post ∧ p.id = pid ∧
      ∀ x ∈ pre, x.id ≠ pid := by
  intro l
  induction l with
  | nil =>
    intro p rest h
    cases h
  | cons q t ih =>
    intro p rest h
    by_cases hq : q.id = pid
    · simp only [removeFirst, if_pos hq, Option.some.injEq, Prod.mk.injEq] at h
      obtain ⟨rfl, rfl⟩ := h
      exact ⟨[], t, rfl, rfl, hq, by intro x hx; cases hx⟩
    · simp only [removeFirst, if_neg hq] at h
      cases hr : removeFirst pid t with
      | none =>
        rw [hr] at h
        cases h
      | some r =>
        obtain ⟨p', rest'⟩ := r
        rw [hr] at h
        simp only [Option.map_some', Option.some.injEq, Prod.mk.injEq] at h
        obtain ⟨rfl, rfl⟩ := h
        obtain ⟨pre, post, h1, h2, h3, h4⟩ := ih p' rest' hr
        refine ⟨q :: pre, post, ?_, ?_, h3, ?_⟩
        · rw [List.cons_append, h1]
        · rw [List.cons_append, h2]
        · intro x hx
          rcases List.mem_cons.mp hx with rfl | hx
          · exact hq
          · exact h4 x hx

theorem promoteHead_map_id (l : List Player) :
    (promoteHead l).map (·.id) = l.map (·.id) := by
  cases l <;> rfl

theorem removeFirst_ne_none (pid : String) :
    ∀ (l : List Player) (p : Player), p ∈ l → p.id = pid →
    removeFirst pid l ≠ none := by
  intro l
  induction l with
  | nil =>
    intro p hp
    cases hp
  | cons q t ih =>
    intro p hp heq
    by_cases hq : q.id = pid
    · simp [removeFirst, hq]
    · rcases List.mem_cons.mp hp with rfl | hp'
      · exact absurd heq hq
      · simp only [removeFirst, if_neg hq, ne_eq, Option.map_eq_none']
        exact ih p hp' heq

/-- C7: `removePlayer` is idempotent against repeated calls: on an
unknown room or absent player it returns `false` and leaves the map
untouched, and after a successful removal an immediately repeated call
returns `false` and changes nothing. -/
theorem removePlayer_idempotent (rooms : Rooms) (code pid : String) :
    (getVal rooms code = none → removePlayer rooms code pid = (rooms, false)) ∧
    (∀ room, getVal rooms code = some room →
      (∀ p ∈ room.players, p.id ≠ pid) →
      removePlayer rooms code pid = (rooms, false)) ∧
    ((rooms.map (·.1)).Nodup →
     (∀ room, getVal rooms code = some room →
       (room.players.map (·.id)).Nodup) →
     (removePlayer rooms code pid).2 = true →
     removePlayer (removePlayer rooms code pid).1 code pid
       = ((removePlayer rooms code pid).1, false)) := by
  have hcase_none : ∀ rs : Rooms, getVal rs code = none →
      removePlayer rs code pid = (rs, false) := by
    intro rs h
    unfold removePlayer
    rw [h]
  have hcase_absent : ∀ (rs : Rooms) room, getVal rs code = some room →
      (∀ p ∈ room.players, p.id ≠ pid) →
      removePlayer rs code pid = (rs, false) := by
    intro rs room h hnp
    unfold removePlayer
    rw [h]
    dsimp only
    rw [removeFirst_eq_none pid room.players hnp]
  refine ⟨hcase_none rooms, fun room h hnp => hcase_absent rooms room h hnp, ?_⟩
  intro hknd hpnd h2
  cases hroom : getVal rooms code with
  | none =>
    rw [hcase_none rooms hroom] at h2
    cases h2
  | some room =>
    cases hrf : removeFirst pid room.players with
    | none =>
      rw [hcase_absent rooms room hroom
        (fun p hp heq => removeFirst_ne_none pid room.players p hp heq hrf)] at h2
      cases h2
    | some pr =>
      obtain ⟨removed, newPlayers⟩ := pr
      obtain ⟨pre, post, hsplit, hrest, hpid, _⟩ :=
        removeFirst_split pid room.players removed newPlayers hrf
      by_cases hemp : newPlayers.length = 0
      · have hres : removePlayer rooms code pid = (delVal rooms code, true) := by
          unfold removePlayer
          rw [hroom]
          dsimp only
          rw [hrf]
          dsimp only
          rw [if_pos hemp]
        rw [hres]
        exact hcase_none _ (getVal_delVal_self rooms code hknd)
      · have hres : removePlayer rooms code pid =
            (setVal rooms code { room with players :=
              (if removed.isHost ∧ 0 < newPlayers.length then
                promoteHead newPlayers else newPlayers) }, true) := by
          unfold removePlayer
          rw [hroom]
          dsimp only
          rw [hrf]
          dsimp only
          rw [if_neg hemp]
        have hids : (if removed.isHost ∧ 0 < newPlayers.length then
            promoteHead newPlayers else newPlayers).map (·.id)
            = newPlayers.map (·.id) := by
          split
          · exact promoteHead_map_id newPlayers
          · rfl
        have hnd := hpnd room hroom
        have hnomem : ∀ p ∈ (if removed.isHost ∧ 0 < newPlayers.length then
            promoteHead newPlayers else newPlayers), p.id ≠ pid := by
          intro p hp heq
          have hmem : p.id ∈ newPlayers.map (·.id) := by
            rw [← hids]
            exact List.mem_map_of_mem _ hp
          rw [heq, ← hpid] at hmem
          rw [hsplit, List.map_append, List.map_cons, List.nodup_append] at hnd
          obtain ⟨hn1, hn2, hn3⟩ := hnd
          rw [hrest, List.map_append] at hmem
          rcases List.mem_append.mp hmem with hm | hm
          · exact hn3 hm (List.mem_cons_self _ _)
          · exact (List.nodup_cons.mp hn2).1 hm
        rw [hres]
        exact hcase_absent _ _ (getVal_setVal_self rooms code _) hnomem

/-- Witness for C7: removing host H1 from the concrete two-player room
succeeds, and the repeated call is a no-op returning `false`. -/
theorem removePlayer_idempotent_witness :
    removePlayer (removePlayer roomsWaiting "AB12" "H1").1 "AB12" "H1"
      = ((removePlayer roomsWaiting "AB12" "H1").1, false) :=
  (removePlayer_idempotent roomsWaiting "AB12" "H1").2.2 (by decide)
    (by decide) (by decide)

theorem promoteHead_ne_nil (l : List Player) (h : l ≠ []) : promoteHead l ≠ [] := by
  cases l with
  | nil => exact absurd rfl h
  | cons q t => simp [promoteHead]

theorem countP_promoteHead (l : List Player) (hne : l ≠ [])
    (h0 : l.countP (·.isHost) = 0) :
    (promoteHead l).countP (·.isHost) = 1 := by
  cases l with
  | nil => exact absurd rfl hne
  | cons q t =>
    rw [List.countP_cons] at h0
    have ht0 : t.countP (·.isHost) = 0 := by
      by_cases hq : q.isHost = true
      · rw [if_pos hq] at h0
        omega
      · rw [if_neg hq] at h0
        omega
    simp [promoteHead, List.countP_cons, ht0]

theorem getVal_mem (m : List (String × α)) (k : String) (v : α)
    (h : getVal m k = some v) : (k, v) ∈ m := by
  unfold getVal at h
  cases hf : m.find? (fun e => e.1 = k) with
  | none =>
    rw [hf] at h
    cases h
  | some e =>
    obtain ⟨e1, e2⟩ := e
    rw [hf] at h
    simp only [Option.map_some', Option.some.injEq] at h
    have hmem := List.mem_of_find?_eq_some hf
    have hp := List.find?_some hf
    simp only [decide_eq_true_eq] at hp
    subst hp h
    exact hmem

/-- C8: the exactly-one-host invariant.  `createRoom` stores a non-empty
single-host room (the sole initial player is host), `joinRoom` preserves
the invariant appending only a non-host player at the end, `removePlayer`
preserves it, and when the removed player was the host of a room that
stays non-empty, the new first player in join order becomes host. -/
theorem host_invariant :
    (∀ (rooms : Rooms) (newCode newId : String) (info : PlayerInfo) (now : Int),
      RoomsInv rooms →
      RoomsInv (createRoom rooms newCode newId info now).1 ∧
      (createRoom rooms newCode newId info now).2.players.countP (·.isHost) = 1 ∧
      (∀ p ∈ (createRoom rooms newCode newId info now).2.players,
        p.isHost = true)) ∧
    (∀ (rooms : Rooms) (code newId : String) (info : PlayerInfo) (now : Int)
        (rooms' : Rooms) (room' : GameRoom),
      RoomsInv rooms →
      joinRoom rooms code newId info now = .ok (rooms', room') →
      RoomsInv rooms' ∧ (room'.players.getLast?).map (·.isHost) = some false) ∧
    (∀ (rooms : Rooms) (code pid : String),
      RoomsInv rooms → RoomsInv (removePlayer rooms code pid).1) ∧
    (∀ (rooms : Rooms) (code pid : String) (room : GameRoom)
        (removed : Player) (newPlayers : List Player),
      getVal rooms code = some room →
      removeFirst pid room.players = some (removed, newPlayers) →
      removed.isHost = true → newPlayers ≠ [] →
      getVal (removePlayer rooms code pid).1 code
        = some { room with players := promoteHead newPlayers } ∧
      (promoteHead newPlayers).head?.map (·.isHost) = some true) := by
  refine ⟨?_, ?_, ?_, ?_⟩
  · intro rooms newCode newId info now hinv
    refine ⟨?_, by simp [createRoom, List.countP_cons], by
      intro p hp
      simp only [createRoom, List.mem_singleton] at hp
      subst hp
      rfl⟩
    intro e he
    rcases mem_setVal _ _ _ e he with h | rfl
    · exact hinv e h
    · exact ⟨by simp, by simp [List.countP_cons]⟩
  · intro rooms code newId info now rooms' room' hinv hok
    unfold joinRoom at hok
    cases hroom : getVal rooms code with
    | none =>
      rw [hroom] at hok
      cases hok
    | some room =>
      rw [hroom] at hok
      dsimp only at hok
      by_cases hst : room.status ≠ .waiting
      · rw [if_pos hst] at hok
        cases hok
      · rw [if_neg hst] at hok
        by_cases hfull : MAX_PLAYERS ≤ room.players.length
        · rw [if_pos hfull] at hok
          cases hok
        · rw [if_neg hfull] at hok
          simp only [Except.ok.injEq, Prod.mk.injEq] at hok
          obtain ⟨h1, h2⟩ := hok
          subst h1
          subst h2
          have hold := hinv (code, room) (getVal_mem rooms code room hroom)
          constructor
          · intro e he
            rcases mem_setVal _ _ _ e he with h | rfl
            · exact hinv e h
            · refine ⟨by simp, ?_⟩
              have h2 := hold.2
              simp only at h2
              simp only [List.countP_append, List.countP_cons, List.countP_nil,
                Bool.false_eq_true, if_false]
              omega
          · simp [List.getLast?_concat]
  · intro rooms code pid hinv
    cases hroom : getVal rooms code with
    | none =>
      have : removePlayer rooms code pid = (rooms, false) := by
        unfold removePlayer
        rw [hroom]
      rw [this]
      exact hinv
    | some room =>
      cases hrf : removeFirst pid room.players with
      | none =>
        have : removePlayer rooms code pid = (rooms, false) := by
          unfold removePlayer
          rw [hroom]
          dsimp only
          rw [hrf]
        rw [this]
        exact hinv
      | some pr =>
        obtain ⟨removed, newPlayers⟩ := pr
        obtain ⟨pre, post, hsplit, hrest, hpid, _⟩ :=
          removeFirst_split pid room.players removed newPlayers hrf
        have hold := hinv (code, room) (getVal_mem rooms code room hroom)
        have hcount : room.players.countP (·.isHost) = 1 := hold.2
        rw [hsplit, List.countP_append, List.countP_cons] at hcount
        by_cases hemp : newPlayers.length = 0
        · have : removePlayer rooms code pid = (delVal rooms code, true) := by
            unfold removePlayer
            rw [hroom]
            dsimp only
            rw [hrf]
            dsimp only
            rw [if_pos hemp]
          rw [this]
          exact fun e he => hinv e (mem_delVal rooms code e he)
        · have hres : removePlayer rooms code pid =
              (setVal rooms code { room with players :=
                (if removed.isHost ∧ 0 < newPlayers.length then
                  promoteHead newPlayers else newPlayers) }, true) := by
            unfold removePlayer
            rw [hroom]
            dsimp only
            rw [hrf]
            dsimp only
            rw [if_neg hemp]
          rw [hres]
          intro e he
          rcases mem_setVal _ _ _ e he with h | rfl
          · exact hinv e h
          · constructor
            · simp only
              split
              · exact promoteHead_ne_nil newPlayers
                  (fun hc => hemp (by rw [hc]; rfl))
              · exact fun hc => hemp (by rw [hc]; rfl)
            · simp only
              cases hhost : removed.isHost with
              | true =>
                rw [if_pos ⟨rfl, by omega⟩]
                rw [hhost] at hcount
                simp at hcount
                apply countP_promoteHead
                · exact fun hc => hemp (by rw [hc]; rfl)
                · rw [hrest, List.countP_append]
                  omega
              | false =>
                rw [if_neg (fun hc => Bool.false_ne_true hc.1)]
                rw [hhost] at hcount
                simp at hcount
                rw [hrest, List.countP_append]
                omega
  · intro rooms code pid room removed newPlayers hroom hrf hhost hne
    have hres : removePlayer rooms code pid =
        (setVal rooms code { room with players :=
          (if removed.isHost ∧ 0 < newPlayers.length then
            promoteHead newPlayers else newPlayers) }, true) := by
      unfold removePlayer
      rw [hroom]
      dsimp only
      rw [hrf]
      dsimp only
      rw [if_neg (fun hc => hne (List.length_eq_zero.mp hc))]
    rw [hres]
    have hlen : 0 < newPlayers.length := by
      cases hn : newPlayers with
      | nil => exact absurd hn hne
      | cons q t => simp
    rw [if_pos ⟨hhost, hlen⟩]
    refine ⟨getVal_setVal_self rooms code _, ?_⟩
    cases hn : newPlayers with
    | nil => exact absurd hn hne
    | cons q t => rfl

/-- Witness for C8 at the concrete two-player waiting room: removing
the host promotes the next player in join order, and createRoom from
the empty registry satisfies the invariant. -/
theorem host_invariant_witness :
    RoomsInv (createRoom [] "CD34" "H9" ⟨"h", "a"⟩ 0).1 ∧
    getVal (removePlayer roomsWaiting "AB12" "H1").1 "AB12"
      = some { gameCode := "AB12"
               players := promoteHead [mkPlayer "G1" false]
               status := .waiting, createdAt := 0 } :=
  ⟨(host_invariant.1 [] "CD34" "H9" ⟨"h", "a"⟩ 0 (by intro e he; cases he)).1,
   (host_invariant.2.2.2 roomsWaiting "AB12" "H1"
      { gameCode := "AB12"
        players := [mkPlayer "H1" true, mkPlayer "G1" false]
        status := .waiting, createdAt := 0 }
      (mkPlayer "H1" true) [mkPlayer "G1" false]
      (by decide) (by decide) (by decide) (by decide)).1⟩

end Simon
